import Mathlib

/-!
Verification of the SEO/GEO URL-analysis pipeline of this repository
(src/src/App.tsx, src/unnamed/part_000).

The TypeScript code is shallowly embedded:
JavaScript objects become association lists of string keys and scalar
JavaScript values; the asynchronous collaborators (the fetch proxy and the
Gemini scoring service) become explicit behavior values over which theorems
quantify; exceptions carry a message string, so that catch-blocks reading
error.message become pattern matches.  Machine-level details (event loop,
React re-rendering) are modeled by the sequence of result-list states that
handleAnalyze publishes through setResults, in order.
-/

/-- A scalar JavaScript value, enough to model the records this app builds
and the cells a scoring response may carry. -/
inductive JsValue where
  | str (s : String)
  | bool (b : Bool)
  | num (n : Int)
  | jsNull
  | undef
deriving DecidableEq

/-- A JavaScript object: an association list of properties in insertion
order.  Objects built by the code below keep their keys unique. -/
abbrev JsObj := List (String × JsValue)

/-- Property read, first binding wins (objects built here have unique keys);
none models an absent property (undefined on read). -/
def jsGet : JsObj → String → Option JsValue
  | [], _ => none
  | (k, v) :: rest, key => if k = key then some v else jsGet rest key

/-- Property write as by an object-literal assignment: an existing key is
overwritten in place, a new key is appended (JavaScript property order). -/
def jsSet : JsObj → String → JsValue → JsObj
  | [], k, v => [(k, v)]
  | (k', v') :: rest, k, v =>
      if k' = k then (k', v) :: rest else (k', v') :: jsSet rest k v

/-- Object built from a literal with spreads: assignments are processed left
to right, so a later binding of the same key wins. -/
def mkObj (l : List (String × JsValue)) : JsObj :=
  l.foldl (fun o p => jsSet o p.1 p.2) []

/-- The value the LAST binding of a key gives in a left-to-right assignment
list; none when the key never occurs. -/
def lastLookup : List (String × JsValue) → String → Option JsValue
  | [], _ => none
  | (k', v) :: rest, k =>
      match lastLookup rest k with
      | some v' => some v'
      | none => if k' = k then some v else none

/-- JavaScript truthiness of a scalar value. -/
def truthy : JsValue → Bool
  | .str s => if s = "" then false else true
  | .bool b => b
  | .num n => if n = 0 then false else true
  | .jsNull => false
  | .undef => false

/-- Truthiness of a possibly-absent value (an absent property is falsy). -/
def truthyOpt : Option JsValue → Bool
  | some v => truthy v
  | none => false

/-- The six property names of the structured-output schema declared in the
generateContent call (responseSchema.properties in App.tsx). -/
def schemaKeys : List String :=
  ["missingToC", "deepLinkableAnchors", "naturalLanguageHeadings",
   "highInformationDensity", "semanticHtml", "summary"]

/-- The pending record handleAnalyze seeds for each URL (App.tsx lines
147-156): status pending, five criteria false, empty summary. -/
def pendingResult (url : String) : JsObj :=
  [("url", .str url), ("status", .str "pending"),
   ("missingToC", .bool false), ("deepLinkableAnchors", .bool false),
   ("naturalLanguageHeadings", .bool false), ("highInformationDensity", .bool false),
   ("semanticHtml", .bool false), ("summary", .str "")]

/-- The record analyzeUrl returns from its catch-block (App.tsx lines
128-138): status error, five criteria false, empty summary, error message. -/
def errorResult (url msg : String) : JsObj :=
  [("url", .str url), ("status", .str "error"),
   ("missingToC", .bool false), ("deepLinkableAnchors", .bool false),
   ("naturalLanguageHeadings", .bool false), ("highInformationDensity", .bool false),
   ("semanticHtml", .bool false), ("summary", .str ""), ("error", .str msg)]

/-- The two fixed bindings of the success literal before the spread
(App.tsx lines 121-125). -/
def baseFields (url : String) : List (String × JsValue) :=
  [("url", .str url), ("status", .str "success")]

/-- The success record: the object literal with the parsed response spread
last, so response entries override url and status on key collision. -/
def successResult (url : String) (entries : List (String × JsValue)) : JsObj :=
  mkObj (baseFields url ++ entries)

/-- Behavior of the body of a successful fetch response: either awaiting
fetchResponse.json() rejects, or the body carries no usable html string so
that html.substring throws (both surface as a thrown message), or it yields
the html string. -/
inductive FetchBody where
  | jsonErr (msg : String)
  | html (s : String)
deriving DecidableEq

/-- Behavior of one call to the fetch collaborator (App.tsx lines 74-84):
the promise rejects with a message, or it resolves with an ok flag, a
statusText and a body. -/
inductive FetchBehavior where
  | fthrow (msg : String)
  | respond (ok : Bool) (statusText : String) (body : FetchBody)
deriving DecidableEq

/-- The parse outcome of the scoring response's text, after the fallback
expression response.text or-else the two-brace empty-object literal
(App.tsx line 119): noText models an undefined or empty text (falsy, so the
empty-object literal is substituted and parses to the empty object); parsed
models a non-empty text JSON.parse accepts, recorded by the property list
that spreading the parsed value yields (a JSON object gives its own entries,
null or a number gives no entries); malformed models a non-empty text on
which JSON.parse throws with the given message. -/
inductive GenText where
  | noText
  | parsed (entries : List (String × JsValue))
  | malformed (msg : String)
deriving DecidableEq

/-- Behavior of one call to the scoring collaborator (App.tsx lines 87-117):
the promise rejects with a message, or it resolves and its text has the
given parse outcome. -/
inductive GenBehavior where
  | gthrow (msg : String)
  | respond (text : GenText)
deriving DecidableEq

/-- Shallow embedding of analyzeUrl (App.tsx lines 71-140) as a function of
the url and the behaviors of its two collaborators.  Every thrown exception
is caught and becomes errorResult with the thrown message. -/
def analyzeUrl (url : String) (fb : FetchBehavior) (gb : GenBehavior) : JsObj :=
  match fb with
  | .fthrow m => errorResult url m
  | .respond ok st body =>
      if !ok then errorResult url ("Failed to fetch page content: " ++ st)
      else
        match body with
        | .jsonErr m => errorResult url m
        | .html _ =>
            match gb with
            | .gthrow m => errorResult url m
            | .respond t =>
                match t with
                | .noText => successResult url []
                | .parsed e => successResult url e
                | .malformed m => errorResult url m

/-- The message of the exception the try-block of analyzeUrl throws for
these collaborator behaviors, none when no stage throws. -/
def thrownMsg (fb : FetchBehavior) (gb : GenBehavior) : Option String :=
  match fb with
  | .fthrow m => some m
  | .respond ok st body =>
      if !ok then some ("Failed to fetch page content: " ++ st)
      else
        match body with
        | .jsonErr m => some m
        | .html _ =>
            match gb with
            | .gthrow m => some m
            | .respond t =>
                match t with
                | .noText => none
                | .parsed _ => none
                | .malformed m => some m

/-- The html string the fetch stage hands to the scoring stage, none when
retrieval already fails. -/
def fetchHtml : FetchBehavior → Option String
  | .respond true _ (.html s) => some s
  | _ => none

/-- Environment of one handleAnalyze run: the behavior of the two
collaborators at the i-th loop iteration. -/
structure Env where
  fetchB : Nat → FetchBehavior
  genB : Nat → GenBehavior

/-- The scoring collaborator honors its declared structured-output schema:
whenever a response text parses to an object, its entries use only the six
declared property names (section 6 of the spec: the service returns a text
payload parseable as that schema shape, or throws). -/
def EnvOK (env : Env) : Prop :=
  ∀ i e, env.genB i = .respond (.parsed e) → ∀ p ∈ e, p.1 ∈ schemaKeys

/-- Splitting a character list at newline characters, the semantics of the
JavaScript split call with a newline separator in handleAnalyze. -/
def splitLinesAux (cur : List Char) : List Char → List (List Char)
  | [] => [cur.reverse]
  | c :: cs =>
      if c = '\n' then cur.reverse :: splitLinesAux [] cs
      else splitLinesAux (c :: cur) cs

/-- A whitespace character as trimmed by the JavaScript trim call. -/
def jsWhitespace (c : Char) : Bool :=
  c = ' ' || c = '\t' || c = '\n' || c = '\r' || c = '\x0c' || c = '\x0b'

/-- Trimming leading and trailing whitespace from a character list, the
semantics of the JavaScript trim call. -/
def trimChars (l : List Char) : List Char :=
  ((l.dropWhile jsWhitespace).reverse.dropWhile jsWhitespace).reverse

/-- The trimmed, non-blank URL list handleAnalyze derives from the textarea
text (App.tsx line 143): split on newlines, trim each line, drop empties. -/
def urlList (input : String) : List String :=
  ((splitLinesAux [] input.data).map (fun l => String.mk (trimChars l))).filter
    (fun u => decide (0 < u.length))

/-- The initial snapshot handleAnalyze publishes: one pending record per
URL, in input order (App.tsx lines 147-156). -/
def initialResults (ul : List String) : List JsObj :=
  ul.map pendingResult

/-- The completion update of one loop iteration (App.tsx line 162): every
record whose url property strictly equals the completed url is replaced by
the new result; strict equality of a string property and a string. -/
def updateStep (results : List JsObj) (url : String) (res : JsObj) : List JsObj :=
  results.map (fun r => if jsGet r "url" = some (.str url) then res else r)

/-- The sequence of result-list states the for-loop of handleAnalyze
publishes after the initial snapshot, one state per completed URL
(App.tsx lines 159-163). -/
def runAux (env : Env) : Nat → List String → List JsObj → List (List JsObj)
  | _, [], _ => []
  | i, u :: rest, cur =>
      let next := updateStep cur u (analyzeUrl u (env.fetchB i) (env.genB i))
      next :: runAux env (i + 1) rest next

/-- All result-list states handleAnalyze publishes, in order: none when the
trimmed URL list is empty (the early return at App.tsx line 144), else the
initial all-pending snapshot followed by one state per completion. -/
def publishedStates (env : Env) (input : String) : List (List JsObj) :=
  let ul := urlList input
  if ul.length = 0 then []
  else initialResults ul :: runAux env 0 ul (initialResults ul)

/-- The URLs the loop body hands to analyzeUrl, in order, mirroring the
recursion of runAux: the loop has no break, so it records one call per
iteration regardless of each call's outcome. -/
def runCallsAux (env : Env) : Nat → List String → List JsObj → List String
  | _, [], _ => []
  | i, u :: rest, cur =>
      let next := updateStep cur u (analyzeUrl u (env.fetchB i) (env.genB i))
      u :: runCallsAux env (i + 1) rest next

/-- The full list of analyzeUrl invocations of one run. -/
def analyzerCalls (env : Env) (input : String) : List String :=
  let ul := urlList input
  if ul.length = 0 then [] else runCallsAux env 0 ul (initialResults ul)

/-- The final published result-list state of a run. -/
def finalState (env : Env) (input : String) : List JsObj :=
  (publishedStates env input).getLastD []

/-- The result analyzeUrl returns at loop iteration p of a run over the URL
list ul. -/
def settled (env : Env) (ul : List String) (p : Nat) : JsObj :=
  analyzeUrl (ul.getD p "") (env.fetchB p) (env.genB p)

/-- The intended shape of the k-th published state: positions before k hold
their completed result, later positions still hold their pending record. -/
def snapshotAt (env : Env) (ul : List String) (k : Nat) : List JsObj :=
  (List.range ul.length).map
    (fun p => if p < k then settled env ul p else pendingResult (ul.getD p ""))

/-- The sequence of values of the status property of the record at position
p across a sequence of published states. -/
def statusSeqAt (states : List (List JsObj)) (p : Nat) : List (Option JsValue) :=
  states.map (fun s => jsGet (s.getD p []) "status")

/-- The status value of a pending record. -/
def pendingV : Option JsValue := some (.str "pending")

/-- A terminal status value: success or error. -/
def isTerminalV (o : Option JsValue) : Bool :=
  decide (o = some (.str "success")) || decide (o = some (.str "error"))

/-- Dropping the leading pending statuses of a status sequence. -/
def dropPendings : List (Option JsValue) → List (Option JsValue)
  | [] => []
  | x :: xs => if x = pendingV then dropPendings xs else x :: xs

/-- The status sequence of one record behaves as the spec states: it starts
pending, and after one transition it stays at a single terminal status. -/
def statusEvolutionOKb : List (Option JsValue) → Bool
  | [] => false
  | x :: xs =>
      if x = pendingV then
        match dropPendings xs with
        | [] => false
        | t :: rest => isTerminalV t && rest.all (fun y => decide (y = t))
      else false

/-- Prefix test on strings by their character lists, the semantics of the
JavaScript startsWith call used by the import filter (App.tsx line 54). -/
def startsWithStr (s pre : String) : Bool :=
  pre.data.isPrefixOf s.data

/-- The value the import handler takes from one worksheet row (App.tsx line
53): the URL column's cell if truthy, else the row's first column value
(JavaScript or-else on row.URL, then the first entry of the row object);
none models undefined (an empty row). -/
def urlOrFirst (row : JsObj) : Option JsValue :=
  match jsGet row "URL" with
  | some v => if truthy v then some v else row.head?.map Prod.snd
  | none => row.head?.map Prod.snd

/-- The import filter applied to one extracted value (App.tsx line 54):
keep it exactly when it is a string whose text starts with http. -/
def keepVal : Option JsValue → Option String
  | some (.str s) => if startsWithStr s "http" then some s else none
  | _ => none

/-- The URL strings the spreadsheet-import handler extracts from the
uploaded rows, in row order (App.tsx lines 52-55). -/
def extractedList (rows : List JsObj) : List String :=
  rows.filterMap (fun row => keepVal (urlOrFirst row))

/-- Joining lines with newline separators, the semantics of the JavaScript
join call (App.tsx line 55). -/
def joinLines : List String → String
  | [] => ""
  | [s] => s
  | s :: rest => s ++ "\n" ++ joinLines rest

/-- The textarea text after the import handler appends the extracted URLs
to the previous text (App.tsx line 57): a truthy (non-empty) previous text
is kept with a newline separator. -/
def importedText (prev : String) (rows : List JsObj) : String :=
  if prev = "" then joinLines (extractedList rows)
  else prev ++ "\n" ++ joinLines (extractedList rows)

/-- Following the spec's words, for comparison with the code's filter: a
string looking like an absolute HTTP(S) URL, read as one starting with the
scheme prefix for http or https. -/
def specAbsoluteHttpUrl (s : String) : Bool :=
  startsWithStr s "http://" || startsWithStr s "https://"

/-- One row of the exported worksheet (App.tsx lines 169-179): the URL,
Status and Summary cells copy the record's properties (undefined when
absent), the five criteria cells render truthiness as Yes or No, and the
Error cell is the record's error property or-else the empty string. -/
def exportRow (r : JsObj) : JsObj :=
  [("URL", (jsGet r "url").getD .undef),
   ("Status", (jsGet r "status").getD .undef),
   ("Missing ToC", .str (if truthyOpt (jsGet r "missingToC") then "Yes" else "No")),
   ("Deep-Linkable Anchors", .str (if truthyOpt (jsGet r "deepLinkableAnchors") then "Yes" else "No")),
   ("Natural Language Headings", .str (if truthyOpt (jsGet r "naturalLanguageHeadings") then "Yes" else "No")),
   ("High Info Density", .str (if truthyOpt (jsGet r "highInformationDensity") then "Yes" else "No")),
   ("Semantic HTML", .str (if truthyOpt (jsGet r "semanticHtml") then "Yes" else "No")),
   ("Summary", (jsGet r "summary").getD .undef),
   ("Error", if truthyOpt (jsGet r "error") then (jsGet r "error").getD .undef else .str "")]

/-- The rows exportToExcel emits: one per record of the current result
list, in order (App.tsx line 169). -/
def exportData (results : List JsObj) : List JsObj :=
  results.map exportRow

/-- The text's parse outcome yields no usable object: the text is absent or
empty, or it is non-empty and JSON.parse rejects it. -/
def textUnusable : GenText → Bool
  | .noText => true
  | .malformed _ => true
  | .parsed _ => false

/-- Claim C1 as stated: in every run (schema-honoring collaborators,
duplicate URLs included), every record position's status sequence across
the published states starts pending and moves exactly once to a single
terminal status. -/
def c1Statement : Prop :=
  ∀ input env, EnvOK env → ∀ p, p < (urlList input).length →
    statusEvolutionOKb (statusSeqAt (publishedStates env input) p) = true

/-- Claim C2 as stated: every published state has one record per input
line, a completion update never touches a record at a different position
than the completing one, and url properties are never rewritten. -/
def c2Statement : Prop :=
  ∀ input env, EnvOK env →
    (∀ k, k < (publishedStates env input).length →
      ((publishedStates env input).getD k []).length = (urlList input).length) ∧
    (∀ i, i < (urlList input).length → ∀ p, p < (urlList input).length → p ≠ i →
      ((publishedStates env input).getD (i + 1) []).getD p [] =
        ((publishedStates env input).getD i []).getD p []) ∧
    (∀ k, k < (publishedStates env input).length → ∀ p, p < (urlList input).length →
      jsGet (((publishedStates env input).getD k []).getD p []) "url" =
        some (.str ((urlList input).getD p "")))

/-- Claim C5 as stated: whenever the analysis of position i fails, record i
ends the run with status error and a non-empty error message, and the
analyzer is still invoked for every input position. -/
def c5Statement : Prop :=
  ∀ input env, EnvOK env → ∀ i, i < (urlList input).length →
    ∀ m, thrownMsg (env.fetchB i) (env.genB i) = some m →
      (jsGet ((finalState env input).getD i []) "status" = some (.str "error") ∧
        ∃ em, em ≠ "" ∧
          jsGet ((finalState env input).getD i []) "error" = some (.str em)) ∧
      analyzerCalls env input = urlList input

/-- Claim C7 as stated: every scoring response whose text yields no usable
object still produces a success record with all six schema fields
default-missing. -/
def c7Statement : Prop :=
  ∀ url st (t : GenText), textUnusable t = true →
    jsGet (analyzeUrl url (.respond true st (.html "")) (.respond t)) "status"
        = some (.str "success") ∧
    ∀ k, k ∈ schemaKeys →
      jsGet (analyzeUrl url (.respond true st (.html "")) (.respond t)) k = none

/-- Claim C8 as stated: on success only the six schema fields of the parsed
response are merged; unexpected fields neither appear in nor alter the
returned record, and absent schema fields stay undefined. -/
def c8Statement : Prop :=
  ∀ url st hs (e : List (String × JsValue)),
    (∀ k, k ∉ schemaKeys → k ≠ "url" → k ≠ "status" →
      jsGet (analyzeUrl url (.respond true st (.html hs)) (.respond (.parsed e))) k
          = none) ∧
    jsGet (analyzeUrl url (.respond true st (.html hs)) (.respond (.parsed e))) "url"
        = some (.str url) ∧
    jsGet (analyzeUrl url (.respond true st (.html hs)) (.respond (.parsed e))) "status"
        = some (.str "success") ∧
    (∀ k, k ∈ schemaKeys →
      jsGet (analyzeUrl url (.respond true st (.html hs)) (.respond (.parsed e))) k
          = lastLookup e k)

/-- Claim C9 as stated: the import appends exactly the string values that
look like absolute HTTP(S) URLs; everything else is filtered out. -/
def c9Statement : Prop :=
  ∀ rows : List JsObj,
    (∀ s, s ∈ extractedList rows → specAbsoluteHttpUrl s = true) ∧
    (∀ row ∈ rows, ∀ s, urlOrFirst row = some (.str s) →
      specAbsoluteHttpUrl s = true → s ∈ extractedList rows)

/-- An environment where every URL analysis succeeds with an empty scoring
text (so the empty object is substituted). -/
def envAllOk : Env :=
  ⟨fun _ => .respond true "OK" (.html ""), fun _ => .respond .noText⟩

/-- An environment where the first analysis fails (the fetch promise
rejects) and every later one succeeds with an empty scoring text. -/
def envFirstFails : Env :=
  ⟨fun i => if i = 0 then .fthrow "boom" else .respond true "OK" (.html ""),
   fun _ => .respond .noText⟩

/-! Helper lemmas about the JavaScript object model. -/

lemma jsGet_jsSet (o : JsObj) (k : String) (v : JsValue) (key : String) :
    jsGet (jsSet o k v) key = if k = key then some v else jsGet o key := by
  induction o with
  | nil => simp [jsSet, jsGet]
  | cons hd tl ih =>
      obtain ⟨k', v'⟩ := hd
      by_cases hk : k' = k
      · subst hk
        by_cases hkey : k' = key <;> simp [jsSet, jsGet, hkey]
      · by_cases hkey : k' = key
        · subst hkey
          have : ¬ k = k' := fun h => hk h.symm
          simp [jsSet, jsGet, hk, this]
        · simp [jsSet, jsGet, hk, hkey, ih]

lemma jsGet_foldl (l : List (String × JsValue)) (o : JsObj) (key : String) :
    jsGet (l.foldl (fun o p => jsSet o p.1 p.2) o) key =
      match lastLookup l key with
      | some v => some v
      | none => jsGet o key := by
  induction l generalizing o with
  | nil => simp [lastLookup]
  | cons hd tl ih =>
      obtain ⟨k, v⟩ := hd
      rw [List.foldl_cons, ih]
      cases htl : lastLookup tl key with
      | some v' => simp [lastLookup, htl]
      | none =>
          by_cases hk : k = key <;>
            simp [lastLookup, htl, jsGet_jsSet, hk]

lemma jsGet_mkObj (l : List (String × JsValue)) (key : String) :
    jsGet (mkObj l) key = lastLookup l key := by
  rw [mkObj, jsGet_foldl]
  cases lastLookup l key <;> simp [jsGet]

lemma lastLookup_append (a b : List (String × JsValue)) (k : String) :
    lastLookup (a ++ b) k =
      match lastLookup b k with
      | some v => some v
      | none => lastLookup a k := by
  induction a with
  | nil => cases hb : lastLookup b k <;> simp [lastLookup, hb]
  | cons hd tl ih =>
      obtain ⟨k', v⟩ := hd
      rw [List.cons_append, lastLookup, ih]
      cases lastLookup b k <;> cases htl : lastLookup tl k <;>
        simp [lastLookup, htl]

lemma lastLookup_eq_none (e : List (String × JsValue)) (k : String)
    (h : ∀ p ∈ e, p.1 ≠ k) : lastLookup e k = none := by
  induction e with
  | nil => rfl
  | cons hd tl ih =>
      rw [lastLookup, ih (fun p hp => h p (List.mem_cons_of_mem hd hp))]
      simp [h hd (List.mem_cons_self hd tl)]

lemma jsGet_successResult (url : String) (e : List (String × JsValue)) (key : String) :
    jsGet (successResult url e) key =
      match lastLookup e key with
      | some v => some v
      | none =>
          if key = "url" then some (.str url)
          else if key = "status" then some (.str "success") else none := by
  rw [successResult, jsGet_mkObj, lastLookup_append]
  cases lastLookup e key with
  | some v => simp
  | none =>
      by_cases hu : key = "url"
      · subst hu; simp [baseFields, lastLookup]
      · by_cases hs : key = "status"
        · subst hs; simp [baseFields, lastLookup]
        · have hu' : ¬ "url" = key := fun h => hu h.symm
          have hs' : ¬ "status" = key := fun h => hs h.symm
          simp [baseFields, lastLookup, hu, hs, hu', hs']

/-! Helper lemmas about analyzeUrl. -/

lemma jsGet_pendingResult_url (u : String) :
    jsGet (pendingResult u) "url" = some (.str u) := rfl

lemma jsGet_pendingResult_status (u : String) :
    jsGet (pendingResult u) "status" = some (.str "pending") := rfl

lemma jsGet_errorResult_url (u m : String) :
    jsGet (errorResult u m) "url" = some (.str u) := rfl

lemma jsGet_errorResult_status (u m : String) :
    jsGet (errorResult u m) "status" = some (.str "error") := rfl

lemma entries_no_url {e : List (String × JsValue)}
    (h : ∀ p ∈ e, p.1 ∈ schemaKeys) : lastLookup e "url" = none := by
  refine lastLookup_eq_none e "url" (fun p hp => ?_)
  intro hk
  have := h p hp
  rw [hk] at this
  revert this
  decide

lemma entries_no_status {e : List (String × JsValue)}
    (h : ∀ p ∈ e, p.1 ∈ schemaKeys) : lastLookup e "status" = none := by
  refine lastLookup_eq_none e "status" (fun p hp => ?_)
  intro hk
  have := h p hp
  rw [hk] at this
  revert this
  decide

lemma url_analyzeUrl (url : String) (fb : FetchBehavior) (gb : GenBehavior)
    (hok : ∀ e, gb = .respond (.parsed e) → ∀ p ∈ e, p.1 ∈ schemaKeys) :
    jsGet (analyzeUrl url fb gb) "url" = some (.str url) := by
  cases fb with
  | fthrow m => exact jsGet_errorResult_url url m
  | respond ok st body =>
      cases ok with
      | false => exact jsGet_errorResult_url url _
      | true =>
          cases body with
          | jsonErr m => exact jsGet_errorResult_url url m
          | html s =>
              cases gb with
              | gthrow m => exact jsGet_errorResult_url url m
              | respond t =>
                  cases t with
                  | noText => rfl
                  | malformed m => exact jsGet_errorResult_url url m
                  | parsed e =>
                      show jsGet (successResult url e) "url" = some (.str url)
                      rw [jsGet_successResult, entries_no_url (hok e rfl)]
                      simp

lemma status_analyzeUrl (url : String) (fb : FetchBehavior) (gb : GenBehavior)
    (hok : ∀ e, gb = .respond (.parsed e) → ∀ p ∈ e, p.1 ∈ schemaKeys) :
    jsGet (analyzeUrl url fb gb) "status" = some (.str "success") ∨
      jsGet (analyzeUrl url fb gb) "status" = some (.str "error") := by
  cases fb with
  | fthrow m => exact Or.inr (jsGet_errorResult_status url m)
  | respond ok st body =>
      cases ok with
      | false => exact Or.inr (jsGet_errorResult_status url _)
      | true =>
          cases body with
          | jsonErr m => exact Or.inr (jsGet_errorResult_status url m)
          | html s =>
              cases gb with
              | gthrow m => exact Or.inr (jsGet_errorResult_status url m)
              | respond t =>
                  cases t with
                  | noText => exact Or.inl rfl
                  | malformed m => exact Or.inr (jsGet_errorResult_status url m)
                  | parsed e =>
                      refine Or.inl ?_
                      show jsGet (successResult url e) "status" = some (.str "success")
                      rw [jsGet_successResult, entries_no_status (hok e rfl)]
                      simp

lemma analyzeUrl_of_thrown (url : String) (fb : FetchBehavior) (gb : GenBehavior)
    (m : String) (h : thrownMsg fb gb = some m) :
    analyzeUrl url fb gb = errorResult url m := by
  cases fb with
  | fthrow m' =>
      simp [thrownMsg] at h
      subst h
      rfl
  | respond ok st body =>
      cases ok with
      | false =>
          simp [thrownMsg] at h
          subst h
          rfl
      | true =>
          cases body with
          | jsonErr m' =>
              simp [thrownMsg] at h
              subst h
              rfl
          | html s =>
              cases gb with
              | gthrow m' =>
                  simp [thrownMsg] at h
                  subst h
                  rfl
              | respond t =>
                  cases t with
                  | noText => simp [thrownMsg] at h
                  | parsed e => simp [thrownMsg] at h
                  | malformed m' =>
                      simp [thrownMsg] at h
                      subst h
                      rfl

/-! Index access helpers. -/

lemma getD_map_range {α : Type} (n p : Nat) (f : Nat → α) (d : α) (hp : p < n) :
    ((List.range n).map f).getD p d = f p := by
  rw [List.getD_eq_getElem?_getD, List.getElem?_map, List.getElem?_range hp]
  rfl

lemma getD_map_lt {α β : Type} (f : α → β) (s : List α) (p : Nat) (d : β) (d' : α)
    (hp : p < s.length) :
    (s.map f).getD p d = f (s.getD p d') := by
  rw [List.getD_eq_getElem (s.map f) d (by simpa using hp),
      List.getD_eq_getElem s d' hp, List.getElem_map]

lemma getD_eq_getElem' {α : Type} (s : List α) (p : Nat) (d : α) (hp : p < s.length) :
    s.getD p d = s[p] := List.getD_eq_getElem s d hp

/-! The snapshot characterization of a duplicate-free run. -/

lemma updateStep_map_range (n : Nat) (g : Nat → JsObj) (u : String) (res : JsObj) :
    updateStep ((List.range n).map g) u res =
      (List.range n).map
        (fun p => if jsGet (g p) "url" = some (.str u) then res else g p) := by
  simp only [updateStep, List.map_map]
  rfl

lemma snapshot_step (env : Env) (ul : List String) (hOK : EnvOK env)
    (hnd : ul.Nodup) (i : Nat) (hi : i < ul.length) :
    updateStep (snapshotAt env ul i) (ul.getD i "") (settled env ul i) =
      snapshotAt env ul (i + 1) := by
  rw [snapshotAt, updateStep_map_range, snapshotAt]
  refine List.map_congr_left (fun p hp => ?_)
  have hpn : p < ul.length := List.mem_range.mp hp
  have hurl : jsGet ((if p < i then settled env ul p else pendingResult (ul.getD p ""))) "url"
      = some (.str (ul.getD p "")) := by
    by_cases hpi : p < i
    · rw [if_pos hpi]
      exact url_analyzeUrl _ _ _ (fun e he => hOK p e he)
    · rw [if_neg hpi]
      exact jsGet_pendingResult_url _
  rw [hurl]
  by_cases hpe : p = i
  · subst hpe
    simp [Nat.lt_irrefl, Nat.lt_succ_self]
  · have hne : ul.getD p "" ≠ ul.getD i "" := by
      rw [getD_eq_getElem' ul p "" hpn, getD_eq_getElem' ul i "" hi]
      intro hc
      exact hpe ((@List.Nodup.getElem_inj_iff _ ul hnd p hpn i hi).mp hc)
    have hcond : ¬ (some (JsValue.str (ul.getD p "")) = some (.str (ul.getD i ""))) := by
      intro hc
      exact hne (by injection hc with hc'; injection hc')
    rw [if_neg hcond]
    by_cases hpi : p < i
    · rw [if_pos hpi, if_pos (Nat.lt_succ_of_lt hpi)]
    · have : ¬ p < i + 1 := by omega
      rw [if_neg hpi, if_neg this]

lemma runAux_snapshot (env : Env) (ul : List String) (hOK : EnvOK env)
    (hnd : ul.Nodup) :
    ∀ rest i, rest = ul.drop i →
      runAux env i rest (snapshotAt env ul i) =
        (List.range rest.length).map (fun j => snapshotAt env ul (i + 1 + j)) := by
  intro rest
  induction rest with
  | nil => intro i _; rfl
  | cons u rest' ih =>
      intro i h
      have hi : i < ul.length := by
        have hlen : (ul.drop i).length = rest'.length + 1 := by
          rw [← h]; rfl
        rw [List.length_drop] at hlen
        omega
      have hdrop : ul.drop i = ul[i] :: ul.drop (i + 1) := List.drop_eq_getElem_cons hi
      rw [hdrop] at h
      have hu : u = ul[i] := (List.cons.injEq _ _ _ _ ▸ h).1
      have hrest : rest' = ul.drop (i + 1) := (List.cons.injEq _ _ _ _ ▸ h).2
      have huD : u = ul.getD i "" := by rw [hu, getD_eq_getElem' ul i "" hi]
      rw [runAux]
      have hstep : updateStep (snapshotAt env ul i) u
          (analyzeUrl u (env.fetchB i) (env.genB i)) = snapshotAt env ul (i + 1) := by
        rw [huD]
        exact snapshot_step env ul hOK hnd i hi
      rw [hstep, ih (i + 1) hrest]
      rw [List.length_cons, List.range_succ_eq_map]
      rw [List.map_cons, List.map_map]
      refine congrArg (_ :: ·) (List.map_congr_left (fun j _ => ?_))
      show snapshotAt env ul (i + 1 + 1 + j) = snapshotAt env ul (i + 1 + (j + 1))
      have : i + 1 + 1 + j = i + 1 + (j + 1) := by omega
      rw [this]

lemma initialResults_eq_snapshot (env : Env) (ul : List String) :
    initialResults ul = snapshotAt env ul 0 := by
  refine List.ext_getElem (by simp [initialResults, snapshotAt]) (fun p h1 h2 => ?_)
  have hpn : p < ul.length := by simpa [initialResults] using h1
  simp only [initialResults, snapshotAt, List.getElem_map, List.getElem_range]
  rw [if_neg (Nat.not_lt_zero p), getD_eq_getElem' ul p "" hpn]

theorem publishedStates_snapshot (env : Env) (input : String) (hOK : EnvOK env)
    (hnd : (urlList input).Nodup) (hne : urlList input ≠ []) :
    publishedStates env input =
      (List.range ((urlList input).length + 1)).map
        (snapshotAt env (urlList input)) := by
  have hlen : ¬ (urlList input).length = 0 := by
    simpa [List.length_eq_zero] using hne
  rw [publishedStates]
  simp only [hlen, if_false]
  rw [initialResults_eq_snapshot env (urlList input),
      runAux_snapshot env (urlList input) hOK hnd (urlList input) 0 (by rfl)]
  rw [List.range_succ_eq_map, List.map_cons, List.map_map]
  refine congrArg (_ :: ·) (List.map_congr_left (fun j _ => ?_))
  show snapshotAt env (urlList input) (0 + 1 + j) = snapshotAt env (urlList input) j.succ
  have : 0 + 1 + j = j.succ := by omega
  rw [this]

/-! Per-state and per-position consequences of the snapshot form. -/

lemma publishedStates_getD (env : Env) (input : String) (hOK : EnvOK env)
    (hnd : (urlList input).Nodup) (hne : urlList input ≠ [])
    (k : Nat) (hk : k ≤ (urlList input).length) :
    (publishedStates env input).getD k [] = snapshotAt env (urlList input) k := by
  rw [publishedStates_snapshot env input hOK hnd hne]
  exact getD_map_range _ k _ _ (by omega)

lemma snapshotAt_getD (env : Env) (ul : List String) (k p : Nat) (hp : p < ul.length) :
    (snapshotAt env ul k).getD p [] =
      if p < k then settled env ul p else pendingResult (ul.getD p "") := by
  rw [snapshotAt]
  exact getD_map_range _ p _ _ hp

lemma publishedStates_length (env : Env) (input : String) (hOK : EnvOK env)
    (hnd : (urlList input).Nodup) (hne : urlList input ≠ []) :
    (publishedStates env input).length = (urlList input).length + 1 := by
  rw [publishedStates_snapshot env input hOK hnd hne]
  simp

lemma statusSeqAt_snapshot (env : Env) (input : String) (hOK : EnvOK env)
    (hnd : (urlList input).Nodup) (p : Nat) (hp : p < (urlList input).length) :
    statusSeqAt (publishedStates env input) p =
      List.replicate (p + 1) pendingV ++
        List.replicate ((urlList input).length - p)
          (jsGet (settled env (urlList input) p) "status") := by
  have hne : urlList input ≠ [] := by
    intro h
    rw [h] at hp
    simp at hp
  rw [statusSeqAt, publishedStates_snapshot env input hOK hnd hne, List.map_map]
  simp only [Function.comp_def]
  have hptw : ∀ k ∈ List.range ((urlList input).length + 1),
      jsGet ((snapshotAt env (urlList input) k).getD p []) "status" =
        if p < k then jsGet (settled env (urlList input) p) "status" else pendingV := by
    intro k _
    rw [snapshotAt_getD env (urlList input) k p hp]
    by_cases hpk : p < k
    · rw [if_pos hpk, if_pos hpk]
    · rw [if_neg hpk, if_neg hpk]
      exact jsGet_pendingResult_status _
  rw [List.map_congr_left hptw]
  have hsplit : (urlList input).length + 1 = (p + 1) + ((urlList input).length - p) := by
    omega
  rw [hsplit, List.range_add, List.map_append, List.map_map]
  congr 1
  · have : ∀ k ∈ List.range (p + 1),
        (if p < k then jsGet (settled env (urlList input) p) "status" else pendingV)
          = pendingV := by
      intro k hk
      have : k < p + 1 := List.mem_range.mp hk
      rw [if_neg (by omega)]
    rw [List.map_congr_left this]
    simp
  · have : ∀ k ∈ List.range ((urlList input).length - p),
        ((fun k => if p < k then jsGet (settled env (urlList input) p) "status"
            else pendingV) ∘ (fun x => p + 1 + x)) k
          = jsGet (settled env (urlList input) p) "status" := by
      intro k _
      show (if p < p + 1 + k then _ else _) = _
      rw [if_pos (by omega)]
    rw [List.map_congr_left this]
    simp

/-! The shape test on status sequences. -/

lemma dropPendings_replicate_append (a : Nat) (l : List (Option JsValue)) :
    dropPendings (List.replicate a pendingV ++ l) = dropPendings l := by
  induction a with
  | zero => rfl
  | succ a' ih => simpa [List.replicate, dropPendings] using ih

lemma all_eq_replicate (b : Nat) (t : Option JsValue) :
    (List.replicate b t).all (fun y => decide (y = t)) = true := by
  induction b with
  | zero => rfl
  | succ b' ih => simp [List.replicate, ih]

lemma statusEvolutionOKb_replicate (a b : Nat) (t : Option JsValue)
    (ha : 0 < a) (hb : 0 < b) (ht : isTerminalV t = true) :
    statusEvolutionOKb (List.replicate a pendingV ++ List.replicate b t) = true := by
  have htp : t ≠ pendingV := by
    intro h
    subst h
    revert ht
    decide
  cases a with
  | zero => omega
  | succ a' =>
      rw [List.replicate, List.cons_append, statusEvolutionOKb]
      rw [if_pos rfl, dropPendings_replicate_append]
      cases b with
      | zero => omega
      | succ b' =>
          rw [List.replicate, dropPendings, if_neg htp]
          simp [ht, all_eq_replicate]

lemma isTerminalV_settled (env : Env) (ul : List String) (hOK : EnvOK env) (p : Nat) :
    isTerminalV (jsGet (settled env ul p) "status") = true := by
  rcases status_analyzeUrl (ul.getD p "") (env.fetchB p) (env.genB p)
      (fun e he => hOK p e he) with h | h <;>
    · rw [settled, h]
      decide

lemma envAllOk_ok : EnvOK envAllOk := by
  intro i e h
  simp [envAllOk] at h

lemma envFirstFails_ok : EnvOK envFirstFails := by
  intro i e h
  simp [envFirstFails] at h

/-- C1, corrected: the claim as stated fails.  With the duplicate input
list of two copies of the same URL, where the first analysis fails and the
second succeeds, the completion updates (which match records by url, not by
position) make position 0 move pending, error, success: a terminal status
flips to the other terminal status. -/
theorem c1_counterexample : ¬ c1Statement := fun h =>
  absurd (h "a\na" envFirstFails envFirstFails_ok 0 (by decide)) (by decide)

/-- C1, amended: when the trimmed URL list has no duplicates (and the
scoring collaborator honors its declared schema), every position's status
sequence across the published states starts pending and changes exactly
once, to a single terminal status, never reverting or flipping. -/
theorem c1_status_monotone (input : String) (env : Env) (hOK : EnvOK env)
    (hnd : (urlList input).Nodup) (p : Nat) (hp : p < (urlList input).length) :
    statusEvolutionOKb (statusSeqAt (publishedStates env input) p) = true := by
  rw [statusSeqAt_snapshot env input hOK hnd p hp]
  exact statusEvolutionOKb_replicate (p + 1) ((urlList input).length - p) _
    (by omega) (by omega) (isTerminalV_settled env (urlList input) hOK p)

/-- C1 witness: the amended theorem applied to a concrete duplicate-free
two-URL run. -/
theorem c1_witness :
    statusEvolutionOKb (statusSeqAt (publishedStates envAllOk "a\nb") 0) = true :=
  c1_status_monotone "a\nb" envAllOk envAllOk_ok (by decide) 0 (by decide)

/-- C2, corrected: the claim as stated fails.  With a duplicate input list
of two copies of the same URL, the first completion update (keyed by url
string equality, not by position) also replaces the record at position 1,
a different position than the completing one. -/
theorem c2_counterexample : ¬ c2Statement := fun h =>
  absurd ((h "a\na" envAllOk envAllOk_ok).2.1 0 (by decide) 1 (by decide) (by decide))
    (by decide)

/-- C2, amended: a completion update replaces exactly the records whose url
property equals the completing URL, so for a duplicate-free trimmed list
(and a schema-honoring scoring collaborator) every published state keeps
one record per input line, an update changes no position other than the
completing one, and no record's url property is ever rewritten. -/
theorem c2_position_keyed (input : String) (env : Env) (hOK : EnvOK env)
    (hnd : (urlList input).Nodup) :
    (∀ k, k < (publishedStates env input).length →
      ((publishedStates env input).getD k []).length = (urlList input).length) ∧
    (∀ i, i < (urlList input).length → ∀ p, p < (urlList input).length → p ≠ i →
      ((publishedStates env input).getD (i + 1) []).getD p [] =
        ((publishedStates env input).getD i []).getD p []) ∧
    (∀ k, k < (publishedStates env input).length → ∀ p, p < (urlList input).length →
      jsGet (((publishedStates env input).getD k []).getD p []) "url" =
        some (.str ((urlList input).getD p ""))) := by
  by_cases hne : urlList input = []
  · have hemp : publishedStates env input = [] := by
      rw [publishedStates]
      simp [hne]
    rw [hemp]
    refine ⟨fun k hk => by simp at hk, fun i hi => ?_, fun k hk => by simp at hk⟩
    rw [hne] at hi
    simp at hi
  · have hlen := publishedStates_length env input hOK hnd hne
    refine ⟨fun k hk => ?_, fun i hi p hp hpi => ?_, fun k hk p hp => ?_⟩
    · rw [hlen] at hk
      rw [publishedStates_getD env input hOK hnd hne k (by omega), snapshotAt]
      simp
    · rw [publishedStates_getD env input hOK hnd hne (i + 1) (by omega),
          publishedStates_getD env input hOK hnd hne i (by omega),
          snapshotAt_getD env (urlList input) (i + 1) p hp,
          snapshotAt_getD env (urlList input) i p hp]
      by_cases hpi' : p < i
      · rw [if_pos (by omega), if_pos hpi']
      · rw [if_neg (by omega), if_neg hpi']
    · rw [hlen] at hk
      rw [publishedStates_getD env input hOK hnd hne k (by omega),
          snapshotAt_getD env (urlList input) k p hp]
      by_cases hpk : p < k
      · rw [if_pos hpk]
        exact url_analyzeUrl _ _ _ (fun e he => hOK p e he)
      · rw [if_neg hpk]
        exact jsGet_pendingResult_url _

/-- C2 witness: the amended locality applied to a concrete duplicate-free
two-URL run, at the position the first update leaves untouched. -/
theorem c2_witness :
    ((publishedStates envAllOk "a\nb").getD 1 []).getD 1 [] =
      ((publishedStates envAllOk "a\nb").getD 0 []).getD 1 [] :=
  (c2_position_keyed "a\nb" envAllOk envAllOk_ok (by decide)).2.1 0 (by decide) 1
    (by decide) (by decide)

/-! The length-and-order invariant, valid also for duplicate URL lists. -/

lemma GoodState_update (ul : List String) (s : List JsObj) (u : String) (res : JsObj)
    (hres : jsGet res "url" = some (.str u))
    (hlen : s.length = ul.length)
    (hurl : ∀ p, p < ul.length → jsGet (s.getD p []) "url" = some (.str (ul.getD p ""))) :
    (updateStep s u res).length = ul.length ∧
    ∀ p, p < ul.length →
      jsGet ((updateStep s u res).getD p []) "url" = some (.str (ul.getD p "")) := by
  constructor
  · simp [updateStep, hlen]
  · intro p hp
    have hps : p < s.length := by omega
    rw [updateStep, getD_map_lt _ s p [] [] hps]
    by_cases hc : jsGet (s.getD p []) "url" = some (JsValue.str u)
    · rw [if_pos hc, hres]
      rw [hurl p hp] at hc
      injection hc with hc'
      injection hc' with hc''
      rw [hc'']
    · rw [if_neg hc]
      exact hurl p hp

lemma runAux_good (env : Env) (ul : List String) (hOK : EnvOK env) :
    ∀ urls i s, s.length = ul.length →
      (∀ p, p < ul.length → jsGet (s.getD p []) "url" = some (.str (ul.getD p ""))) →
      ∀ st ∈ runAux env i urls s,
        st.length = ul.length ∧
        ∀ p, p < ul.length →
          jsGet (st.getD p []) "url" = some (.str (ul.getD p "")) := by
  intro urls
  induction urls with
  | nil =>
      intro i s _ _ st hst
      simp [runAux] at hst
  | cons u rest ih =>
      intro i s hlen hurl st hst
      have hres : jsGet (analyzeUrl u (env.fetchB i) (env.genB i)) "url"
          = some (.str u) := url_analyzeUrl _ _ _ (fun e he => hOK i e he)
      have hnext := GoodState_update ul s u _ hres hlen hurl
      rw [runAux] at hst
      rcases List.mem_cons.mp hst with rfl | hmem
      · exact hnext
      · exact ih (i + 1) _ hnext.1 hnext.2 st hmem

lemma initialResults_good (ul : List String) :
    (initialResults ul).length = ul.length ∧
    ∀ p, p < ul.length →
      jsGet ((initialResults ul).getD p []) "url" = some (.str (ul.getD p "")) := by
  constructor
  · simp [initialResults]
  · intro p hp
    rw [initialResults, getD_map_lt pendingResult ul p [] "" hp]
    exact jsGet_pendingResult_url _

/-- C3, confirmed: in every run over a non-empty trimmed URL list (with a
schema-honoring scoring collaborator), every published state, intermediate
and final, has exactly one record per input line and the record at position
p carries the p-th input URL, in input order — duplicates included. -/
theorem c3_length_order (input : String) (env : Env) (hOK : EnvOK env)
    (hne : urlList input ≠ []) :
    ∀ st ∈ publishedStates env input,
      st.length = (urlList input).length ∧
      ∀ p, p < (urlList input).length →
        jsGet (st.getD p []) "url" = some (.str ((urlList input).getD p "")) := by
  intro st hst
  have hlen0 : ¬ (urlList input).length = 0 := by
    simpa [List.length_eq_zero] using hne
  rw [publishedStates] at hst
  simp only [hlen0, if_false] at hst
  rcases List.mem_cons.mp hst with rfl | hmem
  · exact initialResults_good (urlList input)
  · exact runAux_good env (urlList input) hOK (urlList input) 0 _
      (initialResults_good _).1 (initialResults_good _).2 st hmem

/-- C3 witness: the invariant applied to the first published state of a
concrete run, also showing its hypotheses hold there. -/
theorem c3_witness :
    urlList "a\nb" ≠ [] ∧
    ((publishedStates envAllOk "a\nb").getD 0 []).length = (urlList "a\nb").length :=
  ⟨by decide,
   (c3_length_order "a\nb" envAllOk envAllOk_ok (by decide)
      ((publishedStates envAllOk "a\nb").getD 0 []) (by decide)).1⟩

/-- C4, confirmed: for every non-empty trimmed URL list, the first
published state is one pending record per input URL in input order, each
with status pending, all five criteria false and an empty summary. -/
theorem c4_initial_snapshot (input : String) (env : Env)
    (hne : urlList input ≠ []) :
    (publishedStates env input).head? = some ((urlList input).map pendingResult) ∧
    ∀ p, p < (urlList input).length →
      jsGet (((urlList input).map pendingResult).getD p []) "url"
          = some (.str ((urlList input).getD p "")) ∧
      jsGet (((urlList input).map pendingResult).getD p []) "status"
          = some (.str "pending") ∧
      jsGet (((urlList input).map pendingResult).getD p []) "missingToC"
          = some (.bool false) ∧
      jsGet (((urlList input).map pendingResult).getD p []) "deepLinkableAnchors"
          = some (.bool false) ∧
      jsGet (((urlList input).map pendingResult).getD p []) "naturalLanguageHeadings"
          = some (.bool false) ∧
      jsGet (((urlList input).map pendingResult).getD p []) "highInformationDensity"
          = some (.bool false) ∧
      jsGet (((urlList input).map pendingResult).getD p []) "semanticHtml"
          = some (.bool false) ∧
      jsGet (((urlList input).map pendingResult).getD p []) "summary"
          = some (.str "") := by
  have hlen0 : ¬ (urlList input).length = 0 := by
    simpa [List.length_eq_zero] using hne
  constructor
  · rw [publishedStates]
    simp only [hlen0, if_false]
    simp [initialResults]
  · intro p hp
    rw [getD_map_lt pendingResult _ p [] "" hp]
    exact ⟨jsGet_pendingResult_url _, rfl, rfl, rfl, rfl, rfl, rfl, rfl⟩

/-- C4 witness: the initial snapshot of a concrete two-URL run. -/
theorem c4_witness :
    urlList "a\nb" ≠ [] ∧
    (publishedStates envAllOk "a\nb").head?
      = some ((urlList "a\nb").map pendingResult) :=
  ⟨by decide, (c4_initial_snapshot "a\nb" envAllOk (by decide)).1⟩

/-! The loop visits every URL, and the final state of a duplicate-free run. -/

lemma runCallsAux_eq (env : Env) :
    ∀ urls i s, runCallsAux env i urls s = urls := by
  intro urls
  induction urls with
  | nil => intro i s; rfl
  | cons u rest ih =>
      intro i s
      rw [runCallsAux, ih]

lemma analyzerCalls_eq (env : Env) (input : String) :
    analyzerCalls env input = urlList input := by
  rw [analyzerCalls]
  by_cases h : (urlList input).length = 0
  · simp only [h, if_true]
    exact (List.length_eq_zero.mp h).symm
  · simp only [h, if_false]
    exact runCallsAux_eq env _ _ _

lemma finalState_snapshot (env : Env) (input : String) (hOK : EnvOK env)
    (hnd : (urlList input).Nodup) (hne : urlList input ≠ []) :
    finalState env input = snapshotAt env (urlList input) (urlList input).length := by
  rw [finalState, publishedStates_snapshot env input hOK hnd hne,
      List.range_succ, List.map_append]
  exact List.getLastD_concat _ _ _

/-- C5, corrected: the claim as stated fails.  With the duplicate input
list of two copies of one URL, a failure at position 0 followed by a
success for the same URL leaves record 0 with status success at the end of
the run: the completion updates match by url, so a later duplicate
overwrites the failed record. -/
theorem c5_counterexample : ¬ c5Statement := fun h =>
  absurd (h "a\na" envFirstFails envFirstFails_ok 0 (by decide) "boom"
    (by decide)).1.1 (by decide)

/-- C5, amended: for a duplicate-free trimmed URL list (and a
schema-honoring scoring collaborator), if the analysis at position i throws
with message m, record i ends the run as the error record carrying m (so a
non-empty message whenever m is non-empty), and the analyzer is still
invoked for every input position, failures notwithstanding. -/
theorem c5_error_isolated (input : String) (env : Env) (hOK : EnvOK env)
    (hnd : (urlList input).Nodup) (i : Nat) (hi : i < (urlList input).length)
    (m : String) (hm : thrownMsg (env.fetchB i) (env.genB i) = some m) :
    (finalState env input).getD i [] = errorResult ((urlList input).getD i "") m ∧
    jsGet ((finalState env input).getD i []) "status" = some (.str "error") ∧
    jsGet ((finalState env input).getD i []) "error" = some (.str m) ∧
    (m ≠ "" → ∃ em, em ≠ "" ∧
      jsGet ((finalState env input).getD i []) "error" = some (.str em)) ∧
    analyzerCalls env input = urlList input := by
  have hne : urlList input ≠ [] := by
    intro h
    rw [h] at hi
    simp at hi
  have hfs : (finalState env input).getD i []
      = errorResult ((urlList input).getD i "") m := by
    rw [finalState_snapshot env input hOK hnd hne,
        snapshotAt_getD env (urlList input) _ i hi, if_pos hi]
    exact analyzeUrl_of_thrown _ _ _ m hm
  refine ⟨hfs, ?_, ?_, fun hm' => ⟨m, hm', by rw [hfs]; rfl⟩,
    analyzerCalls_eq env input⟩
  · rw [hfs]; rfl
  · rw [hfs]; rfl

/-- C5 witness: a concrete duplicate-free run whose first analysis throws;
the failed record carries the thrown message at the end of the run. -/
theorem c5_witness :
    thrownMsg (envFirstFails.fetchB 0) (envFirstFails.genB 0) = some "boom" ∧
    jsGet ((finalState envFirstFails "a\nb").getD 0 []) "error"
      = some (.str "boom") :=
  ⟨by decide,
   (c5_error_isolated "a\nb" envFirstFails envFirstFails_ok (by decide) 0
      (by decide) "boom" (by decide)).2.2.1⟩

/-- C6, confirmed: analyzeUrl is a total function of the url and the
collaborator behaviors (it never raises; the embedding is total by
construction), and whenever any stage throws — fetch rejection, non-OK
response, unusable body, scoring rejection, or a JSON.parse failure — the
returned record is the error record: status error, the thrown message in
the error property, all five criteria false and an empty summary. -/
theorem c6_error_shape (url : String) (fb : FetchBehavior) (gb : GenBehavior)
    (m : String) (h : thrownMsg fb gb = some m) :
    analyzeUrl url fb gb = errorResult url m ∧
    jsGet (analyzeUrl url fb gb) "status" = some (.str "error") ∧
    jsGet (analyzeUrl url fb gb) "error" = some (.str m) ∧
    jsGet (analyzeUrl url fb gb) "missingToC" = some (.bool false) ∧
    jsGet (analyzeUrl url fb gb) "deepLinkableAnchors" = some (.bool false) ∧
    jsGet (analyzeUrl url fb gb) "naturalLanguageHeadings" = some (.bool false) ∧
    jsGet (analyzeUrl url fb gb) "highInformationDensity" = some (.bool false) ∧
    jsGet (analyzeUrl url fb gb) "semanticHtml" = some (.bool false) ∧
    jsGet (analyzeUrl url fb gb) "summary" = some (.str "") := by
  have he := analyzeUrl_of_thrown url fb gb m h
  rw [he]
  exact ⟨rfl, rfl, rfl, rfl, rfl, rfl, rfl, rfl, rfl⟩

/-- C6 witness: a rejecting fetch on a concrete URL yields the error
record. -/
theorem c6_witness :
    thrownMsg (.fthrow "net down") (.respond .noText) = some "net down" ∧
    jsGet (analyzeUrl "https://a" (.fthrow "net down") (.respond .noText)) "error"
      = some (.str "net down") :=
  ⟨by decide,
   (c6_error_shape "https://a" (.fthrow "net down") (.respond .noText) "net down"
      (by decide)).2.2.1⟩

/-- C7, corrected: the claim as stated fails.  The empty-object fallback
applies only when the response text is absent or empty (falsy): a non-empty
text that JSON.parse rejects throws inside the try-block, so the record
becomes an error, not a success. -/
theorem c7_counterexample : ¬ c7Statement := fun h =>
  absurd (h "a" "OK" (.malformed "bad json") (by decide)).1 (by decide)

/-- C7, amended: when retrieval succeeds, an absent or empty scoring text
is replaced by the empty-object literal, and the URL still succeeds with
all six schema fields missing; a non-empty text that JSON.parse rejects
instead fails the URL with the parse error's message. -/
theorem c7_empty_text_fallback (url : String) (fb : FetchBehavior) (s : String)
    (hf : fetchHtml fb = some s) :
    (analyzeUrl url fb (.respond .noText) = successResult url [] ∧
      jsGet (analyzeUrl url fb (.respond .noText)) "status"
          = some (.str "success") ∧
      ∀ k, k ∈ schemaKeys → jsGet (analyzeUrl url fb (.respond .noText)) k = none) ∧
    ∀ m, analyzeUrl url fb (.respond (.malformed m)) = errorResult url m := by
  cases fb with
  | fthrow m' => simp [fetchHtml] at hf
  | respond ok st body =>
      cases ok with
      | false => simp [fetchHtml] at hf
      | true =>
          cases body with
          | jsonErr m' => simp [fetchHtml] at hf
          | html hs =>
              refine ⟨⟨rfl, rfl, fun k hk => ?_⟩, fun m => rfl⟩
              have hkeys : k = "missingToC" ∨ k = "deepLinkableAnchors" ∨
                  k = "naturalLanguageHeadings" ∨ k = "highInformationDensity" ∨
                  k = "semanticHtml" ∨ k = "summary" := by
                simpa [schemaKeys] using hk
              rcases hkeys with rfl | rfl | rfl | rfl | rfl | rfl <;> rfl

/-- C7 witness: a concrete successful fetch whose scoring text is empty;
the record succeeds with the summary field missing. -/
theorem c7_witness :
    fetchHtml (.respond true "OK" (.html "<p>x</p>")) = some "<p>x</p>" ∧
    jsGet (analyzeUrl "a" (.respond true "OK" (.html "<p>x</p>"))
        (.respond .noText)) "summary" = none :=
  ⟨by decide,
   (c7_empty_text_fallback "a" (.respond true "OK" (.html "<p>x</p>")) "<p>x</p>"
      (by decide)).1.2.2 "summary" (by decide)⟩

/-- C8, corrected: the claim as stated fails.  The success record is built
by spreading the whole parsed response onto the url and status bindings, so
an unexpected field does appear in the returned record (and a response
field named url or status would even override those bindings). -/
theorem c8_counterexample : ¬ c8Statement := fun h =>
  absurd ((h "a" "OK" "x" [("hacked", .bool true)]).1 "hacked" (by decide)
    (by decide) (by decide)) (by decide)

/-- C8, amended: on success the record is the object literal with the
parsed response spread last: every response field — expected or not —
appears in the record, a later binding of a key wins, response fields named
url or status override those bindings, and a schema field absent from the
response stays undefined (none). -/
theorem c8_spread_semantics (url st hs : String) (e : List (String × JsValue))
    (k : String) :
    jsGet (analyzeUrl url (.respond true st (.html hs)) (.respond (.parsed e))) k =
      match lastLookup e k with
      | some v => some v
      | none =>
          if k = "url" then some (.str url)
          else if k = "status" then some (.str "success") else none := by
  show jsGet (successResult url e) k = _
  rw [jsGet_successResult]

/-! Helper lemmas for the import filter. -/

lemma isPrefixOf_of_append (p q l : List Char)
    (h : (p ++ q).isPrefixOf l = true) : p.isPrefixOf l = true := by
  induction p generalizing l with
  | nil => cases l <;> rfl
  | cons c cs ih =>
      cases l with
      | nil => simp [List.isPrefixOf] at h
      | cons x xs =>
          rw [List.cons_append] at h
          simp only [List.isPrefixOf, Bool.and_eq_true] at h ⊢
          exact ⟨h.1, ih xs h.2⟩

lemma keepVal_eq_some (o : Option JsValue) (s : String) :
    keepVal o = some s ↔ o = some (.str s) ∧ startsWithStr s "http" = true := by
  cases o with
  | none => simp [keepVal]
  | some v =>
      cases v with
      | str s' =>
          by_cases hs : startsWithStr s' "http" = true
          · rw [keepVal, if_pos hs]
            constructor
            · intro h
              injection h with h'
              subst h'
              exact ⟨rfl, hs⟩
            · rintro ⟨h1, _⟩
              injection h1 with h1'
              injection h1' with h1''
              rw [h1'']
          · rw [keepVal, if_neg hs]
            constructor
            · intro h
              exact absurd h (by simp)
            · rintro ⟨h1, h2⟩
              injection h1 with h1'
              injection h1' with h1''
              subst h1''
              exact absurd h2 hs
      | bool b => simp [keepVal]
      | num n => simp [keepVal]
      | jsNull => simp [keepVal]
      | undef => simp [keepVal]

/-- C9, corrected: the claim as stated fails.  The import filter only tests
the prefix http via startsWith, so the string httpx in the URL column — not
an absolute HTTP(S) URL — is still appended. -/
theorem c9_counterexample : ¬ c9Statement := fun h =>
  absurd ((h [[("URL", .str "httpx")]]).1 "httpx" (by decide)) (by decide)

/-- C9, amended: the import keeps exactly the extracted values that are
strings starting with the four characters http (which includes every
absolute HTTP(S) URL, but also non-URL strings with that prefix), and
appends them to the existing text with a newline separator when that text
is non-empty. -/
theorem c9_prefix_filter (rows : List JsObj) (prev : String) :
    (∀ s, s ∈ extractedList rows ↔
      ∃ row ∈ rows, urlOrFirst row = some (.str s) ∧ startsWithStr s "http" = true) ∧
    (∀ s, specAbsoluteHttpUrl s = true → startsWithStr s "http" = true) ∧
    (prev = "" → importedText prev rows = joinLines (extractedList rows)) ∧
    (prev ≠ "" →
      importedText prev rows = prev ++ "\n" ++ joinLines (extractedList rows)) := by
  refine ⟨fun s => ?_, fun s hs => ?_, fun hp => ?_, fun hp => ?_⟩
  · rw [extractedList, List.mem_filterMap]
    constructor
    · rintro ⟨row, hrow, hkeep⟩
      rw [keepVal_eq_some] at hkeep
      exact ⟨row, hrow, hkeep⟩
    · rintro ⟨row, hrow, hcond⟩
      exact ⟨row, hrow, (keepVal_eq_some _ _).mpr hcond⟩
  · rw [specAbsoluteHttpUrl, Bool.or_eq_true] at hs
    rw [startsWithStr]
    rcases hs with hs | hs
    · rw [startsWithStr] at hs
      have hd : "http://".data = "http".data ++ "://".data := by decide
      rw [hd] at hs
      exact isPrefixOf_of_append _ _ _ hs
    · rw [startsWithStr] at hs
      have hd : "https://".data = "http".data ++ "s://".data := by decide
      rw [hd] at hs
      exact isPrefixOf_of_append _ _ _ hs
  · rw [importedText, if_pos hp]
  · rw [importedText, if_neg hp]

/-- C9 witness: a concrete absolute HTTPS URL passes the code's prefix
filter, by the amended inclusion. -/
theorem c9_witness :
    specAbsoluteHttpUrl "https://www.volkswagen.de/x" = true ∧
    startsWithStr "https://www.volkswagen.de/x" "http" = true :=
  ⟨by decide,
   (c9_prefix_filter [] "").2.1 "https://www.volkswagen.de/x" (by decide)⟩

lemma jsGet_exportRow_error (r : JsObj) :
    jsGet (exportRow r) "Error" =
      some (if truthyOpt (jsGet r "error") then (jsGet r "error").getD .undef
        else .str "") := rfl

/-- C10, confirmed: exportToExcel emits exactly one row per record of the
current result list regardless of status; a record still pending maps to a
row with Status pending, all five criteria cells No, an empty Summary and
an empty Error cell; and whenever the record's error property is absent or
a string, the Error cell is a string, the empty string when the property is
absent. -/
theorem c10_export_rows (results : List JsObj) (u : String) (r : JsObj) :
    (exportData results).length = results.length ∧
    exportRow (pendingResult u) =
      [("URL", .str u), ("Status", .str "pending"),
       ("Missing ToC", .str "No"), ("Deep-Linkable Anchors", .str "No"),
       ("Natural Language Headings", .str "No"), ("High Info Density", .str "No"),
       ("Semantic HTML", .str "No"), ("Summary", .str ""), ("Error", .str "")] ∧
    ((jsGet r "error" = none ∨ ∃ m, jsGet r "error" = some (.str m)) →
      (∃ s, jsGet (exportRow r) "Error" = some (.str s)) ∧
      (jsGet r "error" = none → jsGet (exportRow r) "Error" = some (.str ""))) := by
  refine ⟨by simp [exportData], rfl, fun h => ⟨?_, fun hn => ?_⟩⟩
  · rcases h with hn | ⟨m, hm⟩
    · exact ⟨"", by rw [jsGet_exportRow_error, hn]; rfl⟩
    · by_cases hme : m = ""
      · subst hme
        exact ⟨"", by rw [jsGet_exportRow_error, hm]; rfl⟩
      · refine ⟨m, ?_⟩
        rw [jsGet_exportRow_error, hm]
        have ht : truthyOpt (some (JsValue.str m)) = true := by
          simp [truthyOpt, truthy, hme]
        rw [ht]
        rfl
  · rw [jsGet_exportRow_error, hn]
    rfl

/-- C10 witness: the export of a concrete pending record has an empty
string in its Error cell. -/
theorem c10_witness :
    jsGet (pendingResult "a") "error" = none ∧
    jsGet (exportRow (pendingResult "a")) "Error" = some (.str "") :=
  ⟨by decide,
   ((c10_export_rows [] "a" (pendingResult "a")).2.2 (Or.inl (by decide))).2
     (by decide)⟩
